import Mathlib

/-!
Verification development for the chronoro-sprinklr pipeline.

Shallow embedding of the Python sources:
  * `main.py`            — task sharding, GenAI throttling/backoff, article
                           extraction post-processing, GCS shard publishing;
  * `function_api_payload_from_sprinklr.py`
                         — paged report fetching, topic batching, row
                           normalisation and deduplication;
  * `sprinklr_client.py` — token persistence with optimistic concurrency and
                           the authenticated `spr` call with one refresh retry.

Machine floats of the source are modelled as rationals; wall-clock time is
modelled as an explicit clock state threaded through each operation, with
adversarial non-negative advances standing for time passing outside `sleep`.
-/

namespace Sprinklr

/-! ## Task sharding (`main.py`, `run`, lines 1110-1115)

```python
task_index, task_count = _get_task_index_count()
total = len(df)
start_i = (total * task_index) // task_count
end_i = (total * (task_index + 1)) // task_count
df = df.iloc[start_i:end_i]
```
-/

def shardStart (total taskIndex taskCount : Nat) : Nat :=
  total * taskIndex / taskCount

def shardEnd (total taskIndex taskCount : Nat) : Nat :=
  total * (taskIndex + 1) / taskCount

lemma shardStart_zero (total k : Nat) : shardStart total 0 k = 0 := by
  simp [shardStart]

lemma shardStart_mono (total k : Nat) {i j : Nat} (h : i ≤ j) :
    shardStart total i k ≤ shardStart total j k :=
  Nat.div_le_div_right (Nat.mul_le_mul (Nat.le_refl total) h)

lemma shardEnd_eq_shardStart_succ (total i k : Nat) :
    shardEnd total i k = shardStart total (i + 1) k := rfl

lemma shardStart_self (total k : Nat) (hk : 0 < k) :
    shardStart total k k = total := by
  simp [shardStart, Nat.mul_div_cancel total hk]

/-- Every point strictly below `shardStart total n k` lies in some shard
range with index below `n`. -/
lemma shard_exists_below (total k : Nat) :
    ∀ n x, x < shardStart total n k →
      ∃ i, i < n ∧ shardStart total i k ≤ x ∧ x < shardStart total (i + 1) k := by
  intro n
  induction n with
  | zero =>
      intro x hx
      rw [shardStart_zero] at hx
      exact absurd hx (Nat.not_lt_zero x)
  | succ n ih =>
      intro x hx
      by_cases h : shardStart total n k ≤ x
      · exact ⟨n, Nat.lt_succ_self n, h, hx⟩
      · obtain ⟨i, hi, h1, h2⟩ := ih x (Nat.lt_of_not_le h)
        exact ⟨i, Nat.lt_succ_of_lt hi, h1, h2⟩

/-- C1: the shard ranges `[shardStart, shardEnd)` for task indices
`0..taskCount-1` exactly tile `[0, total)`: membership in some range is
equivalent to lying in `[0, total)` (no gap), ranges are pairwise disjoint
(no overlap), consecutive ranges abut (contiguity), the concrete case
`total = 7, taskCount = 3` produces `[0,2), [2,4), [4,7)`, and for
`total = 0` every range is empty. -/
theorem C1_partition_ranges_tile (total k : Nat) (hk : 1 ≤ k) :
    (∀ x, x < total ↔
        ∃ i, i < k ∧ shardStart total i k ≤ x ∧ x < shardEnd total i k)
  ∧ (∀ i j x, i < k → j < k →
        shardStart total i k ≤ x → x < shardEnd total i k →
        shardStart total j k ≤ x → x < shardEnd total j k → i = j)
  ∧ (∀ i, i + 1 < k → shardEnd total i k = shardStart total (i + 1) k)
  ∧ (shardStart 7 0 3 = 0 ∧ shardEnd 7 0 3 = 2
      ∧ shardStart 7 1 3 = 2 ∧ shardEnd 7 1 3 = 4
      ∧ shardStart 7 2 3 = 4 ∧ shardEnd 7 2 3 = 7)
  ∧ (∀ i, shardStart 0 i k = shardEnd 0 i k) := by
  have hk' : 0 < k := hk
  refine ⟨?_, ?_, ?_, ?_, ?_⟩
  · intro x
    constructor
    · intro hx
      have hx' : x < shardStart total k k := by
        rw [shardStart_self total k hk']; exact hx
      obtain ⟨i, hi, h1, h2⟩ := shard_exists_below total k k x hx'
      exact ⟨i, hi, h1, h2⟩
    · rintro ⟨i, hi, _, h2⟩
      have h3 : shardStart total (i + 1) k ≤ shardStart total k k :=
        shardStart_mono total k hi
      rw [shardStart_self total k hk'] at h3
      exact Nat.lt_of_lt_of_le h2 h3
  · intro i j x _ _ hi1 hi2 hj1 hj2
    by_contra hne
    rcases Nat.lt_or_ge i j with h | h
    · have : shardStart total (i + 1) k ≤ shardStart total j k :=
        shardStart_mono total k h
      exact absurd (Nat.lt_of_lt_of_le hi2 (Nat.le_trans this hj1))
        (Nat.lt_irrefl x)
    · rcases Nat.lt_or_ge j i with h' | h'
      · have : shardStart total (j + 1) k ≤ shardStart total i k :=
          shardStart_mono total k h'
        exact absurd (Nat.lt_of_lt_of_le hj2 (Nat.le_trans this hi1))
          (Nat.lt_irrefl x)
      · exact hne (Nat.le_antisymm h' h)
  · intro i _
    exact shardEnd_eq_shardStart_succ total i k
  · exact ⟨rfl, rfl, rfl, rfl, rfl, rfl⟩
  · intro i
    simp [shardStart, shardEnd]

/-- Witness for C1 at `total = 7`, `taskCount = 3`. -/
theorem C1_partition_ranges_tile_witness :
    1 ≤ 3 ∧ (3 < 7 ↔
      ∃ i, i < 3 ∧ shardStart 7 i 3 ≤ 3 ∧ 3 < shardEnd 7 i 3) :=
  ⟨by decide, (C1_partition_ranges_tile 7 3 (by decide)).1 3⟩

/-! ## JSON value model

Rows returned by the Sprinklr report API are Python dicts built from JSON.
JSON numbers are modelled as integers (the identifying fields the code
inspects are ids and counts). -/

inductive JVal : Type where
  | null : JVal
  | bool : Bool → JVal
  | num : Int → JVal
  | str : String → JVal
  | arr : List JVal → JVal
  | obj : List (String × JVal) → JVal

/-- A Python dict with string keys, as an association list (keys unique in
practice; lookup takes the first binding like a dict would). -/
def Row : Type := List (String × JVal)

/-- `row.get(k)`: first binding for `k`, if any. -/
def rowGet (r : Row) (k : String) : Option JVal :=
  (List.find? (fun p => p.1 == k) r).map Prod.snd

/-- Python truthiness of a JSON-derived value: `None`, `False`, `0`, `""`,
`[]`, `{}` are falsy. -/
def jTruthy : JVal → Bool
  | .null => false
  | .bool b => b
  | .num n => n != 0
  | .str s => s != ""
  | .arr xs => !xs.isEmpty
  | .obj fs => !fs.isEmpty

/-- Python `repr` of a JSON-derived value (string escaping inside nested
reprs elided; the code only ever runs `str` on scalar fields). -/
def pyRepr : JVal → String
  | .null => "None"
  | .bool true => "True"
  | .bool false => "False"
  | .num n => toString n
  | .str s => "'" ++ s ++ "'"
  | .arr xs => "[" ++ String.intercalate ", "
      (xs.attach.map (fun ⟨v, _⟩ => pyRepr v)) ++ "]"
  | .obj fs => "\x7b" ++ String.intercalate ", "
      (fs.attach.map (fun ⟨p, h⟩ =>
        "'" ++ p.1 ++ "': " ++ pyRepr p.2)) ++ "\x7d"
decreasing_by
  · have := List.sizeOf_lt_of_mem ‹v ∈ xs›
    simp only [JVal.arr.sizeOf_spec]
    omega
  · have h1 := List.sizeOf_lt_of_mem h
    have h2 : sizeOf p.2 < sizeOf p := by
      obtain ⟨a, b⟩ := p
      simp only [Prod.mk.sizeOf_spec]
      omega
    simp only [JVal.obj.sizeOf_spec]
    omega

/-- Python `str()` of a JSON-derived value. -/
def pyStr : JVal → String
  | .str s => s
  | v => pyRepr v

def hexDigit (n : Nat) : Char :=
  if n < 10 then Char.ofNat (48 + n) else Char.ofNat (87 + n)

/-- One character of `json.dumps` string escaping (`ensure_ascii=False`). -/
def jsonEscapeChar (c : Char) : String :=
  if c = '"' then "\\\""
  else if c = '\\' then "\\\\"
  else if c = '\n' then "\\n"
  else if c = '\t' then "\\t"
  else if c = '\r' then "\\r"
  else if c = '\x08' then "\\b"
  else if c = '\x0c' then "\\f"
  else if c.val < 32 then
    "\\u00" ++ String.mk [hexDigit (c.val.toNat / 16), hexDigit (c.val.toNat % 16)]
  else String.singleton c

def jsonEscape (s : String) : String :=
  String.join (s.data.map jsonEscapeChar)

/-- Code-point lexicographic strict order on strings (Python `<`). -/
def strLtB : List Char → List Char → Bool
  | [], [] => false
  | [], _ :: _ => true
  | _ :: _, [] => false
  | a :: as, b :: bs =>
      if a.val < b.val then true
      else if b.val < a.val then false
      else strLtB as bs

/-- Stable insertion of a rendered field into a key-sorted list. -/
def insertByKey (x : String × String) : List (String × String) → List (String × String)
  | [] => [x]
  | y :: ys =>
      if strLtB y.1.data x.1.data then y :: insertByKey x ys
      else x :: y :: ys

/-- Stable sort of rendered fields by key (`json.dumps(..., sort_keys=True)`). -/
def sortRendered : List (String × String) → List (String × String)
  | [] => []
  | x :: xs => insertByKey x (sortRendered xs)

/-- `json.dumps(v, ensure_ascii=False, sort_keys=True)`. -/
def jsonDumps : JVal → String
  | .null => "null"
  | .bool true => "true"
  | .bool false => "false"
  | .num n => toString n
  | .str s => "\"" ++ jsonEscape s ++ "\""
  | .arr xs => "[" ++ String.intercalate ", "
      (xs.attach.map (fun ⟨v, _⟩ => jsonDumps v)) ++ "]"
  | .obj fs => "\x7b" ++ String.intercalate ", "
      ((sortRendered (fs.attach.map (fun ⟨p, h⟩ => (p.1, jsonDumps p.2)))).map
        (fun q => "\"" ++ jsonEscape q.1 ++ "\": " ++ q.2)) ++ "\x7d"
decreasing_by
  · have := List.sizeOf_lt_of_mem ‹v ∈ xs›
    simp only [JVal.arr.sizeOf_spec]
    omega
  · have h1 := List.sizeOf_lt_of_mem h
    have h2 : sizeOf p.2 < sizeOf p := by
      obtain ⟨a, b⟩ := p
      simp only [Prod.mk.sizeOf_spec]
      omega
    simp only [JVal.obj.sizeOf_spec]
    omega

/-! ## Row deduplication
(`function_api_payload_from_sprinklr.py`, `_extract_row_key` lines 279-302,
`dedup_rows` lines 305-315) -/

/-- Inner lookup of `_extract_row_key` on an `ES_MESSAGE_ID*` dict:
`universalMessageId` if truthy, else `snMsgId` if truthy. -/
def esIdKey (fs : Row) : Option String :=
  match rowGet fs "universalMessageId" with
  | some u =>
      if jTruthy u then some (pyStr u)
      else match rowGet fs "snMsgId" with
        | some m => if jTruthy m then some (pyStr m) else none
        | none => none
  | none =>
      match rowGet fs "snMsgId" with
      | some m => if jTruthy m then some (pyStr m) else none
      | none => none

/-- One step of the `ES_MESSAGE_ID_0` / `ES_MESSAGE_ID` loop: only dict
values are inspected. -/
def esStep (row : Row) (k : String) : Option String :=
  match rowGet row k with
  | some (.obj fs) => esIdKey fs
  | _ => none

/-- One step of the `PERMALINK` / `PERMALINK_1` loop:
`if k in row and row[k]: return str(row[k])`. -/
def permalinkStep (row : Row) (k : String) : Option String :=
  match rowGet row k with
  | some v => if jTruthy v then some (pyStr v) else none
  | none => none

/-- Python `a or b` on two dict lookups. -/
def pyOrJ (a b : Option JVal) : Option JVal :=
  match a with
  | some v => if jTruthy v then some v else b
  | none => b

/-- `_extract_row_key`: priority
`ES_MESSAGE_ID.universalMessageId -> snMsgId -> PERMALINK -> PERMALINK_1`,
then the `WEB_TITLE || MEDIA_SOURCE_NAME` composite fallback. -/
def extract_row_key (row : Row) : Option String :=
  match esStep row "ES_MESSAGE_ID_0" with
  | some s => some s
  | none =>
  match esStep row "ES_MESSAGE_ID" with
  | some s => some s
  | none =>
  match permalinkStep row "PERMALINK" with
  | some s => some s
  | none =>
  match permalinkStep row "PERMALINK_1" with
  | some s => some s
  | none =>
      let title := pyOrJ (rowGet row "WEB_TITLE_ES_MESSAGE_ID_2")
        (rowGet row "WEB_TITLE_ES_MESSAGE_ID")
      let source := pyOrJ (rowGet row "MEDIA_SOURCE_NAME_3")
        (rowGet row "MEDIA_SOURCE_NAME")
      match title, source with
      | some t, some s =>
          if jTruthy t && jTruthy s then some (pyStr t ++ "||" ++ pyStr s)
          else none
      | _, _ => none

/-- The DedupKey of a row:
`_extract_row_key(r) or json.dumps(r, ensure_ascii=False, sort_keys=True)`
(Python `or` also falls through on an empty-string key). -/
def rowKey (r : Row) : String :=
  match extract_row_key r with
  | some s => if s = "" then jsonDumps (.obj r) else s
  | none => jsonDumps (.obj r)

/-- The `seen`-set loop of `dedup_rows`. -/
def dedupAux (seen : List String) : List Row → List Row
  | [] => []
  | r :: rs =>
      let key := rowKey r
      if key ∈ seen then dedupAux seen rs
      else r :: dedupAux (key :: seen) rs

/-- `dedup_rows`: keep the first row per DedupKey, in order. -/
def dedup_rows (rows : List Row) : List Row := dedupAux [] rows

lemma dedupAux_sublist (seen : List String) (l : List Row) :
    List.Sublist (dedupAux seen l) l := by
  induction l generalizing seen with
  | nil => simp [dedupAux]
  | cons r rs ih =>
      simp only [dedupAux]
      by_cases h : rowKey r ∈ seen
      · simp only [if_pos h]
        exact List.Sublist.cons r (ih seen)
      · simp only [if_neg h]
        exact List.Sublist.cons₂ r (ih (rowKey r :: seen))

lemma find?_cons_of_false {α : Type} (p : α → Bool) (a : α) (l : List α)
    (h : p a = false) : List.find? p (a :: l) = List.find? p l := by
  simp [List.find?_cons, h]

lemma find?_cons_of_true {α : Type} (p : α → Bool) (a : α) (l : List α)
    (h : p a = true) : List.find? p (a :: l) = some a := by
  simp [List.find?_cons, h]

/-- Every survivor's key is fresh with respect to `seen`, and the survivor
is the first row of the input carrying its key. -/
lemma dedupAux_first (seen : List String) (l : List Row) :
    ∀ r ∈ dedupAux seen l,
      rowKey r ∉ seen ∧ l.find? (fun x => rowKey x == rowKey r) = some r := by
  induction l generalizing seen with
  | nil => intro r hr; simp [dedupAux] at hr
  | cons a rs ih =>
      intro r hr
      simp only [dedupAux] at hr
      by_cases h : rowKey a ∈ seen
      · rw [if_pos h] at hr
        obtain ⟨hN, hF⟩ := ih seen r hr
        have hne : (rowKey a == rowKey r) = false := by
          simp only [beq_eq_false_iff_ne, ne_eq]
          intro hEq
          exact hN (hEq ▸ h)
        refine ⟨hN, ?_⟩
        rw [find?_cons_of_false (fun x => rowKey x == rowKey r) a rs hne, hF]
      · rw [if_neg h] at hr
        rcases List.mem_cons.mp hr with hra | hrt
        · subst hra
          refine ⟨h, ?_⟩
          rw [find?_cons_of_true (fun x => rowKey x == rowKey r) r rs (by simp)]
        · obtain ⟨hN, hF⟩ := ih (rowKey a :: seen) r hrt
          have hN1 : rowKey r ≠ rowKey a := fun hEq => hN (by simp [hEq])
          have hN2 : rowKey r ∉ seen := fun hIn => hN (by simp [hIn])
          refine ⟨hN2, ?_⟩
          have hne : (rowKey a == rowKey r) = false := by
            simp only [beq_eq_false_iff_ne, ne_eq]
            exact fun hEq => hN1 hEq.symm
          rw [find?_cons_of_false (fun x => rowKey x == rowKey r) a rs hne, hF]

/-- Every input row's key is either already in `seen` or represented among
the survivors. -/
lemma dedupAux_covers (seen : List String) (l : List Row) :
    ∀ r ∈ l, rowKey r ∈ seen ∨
      ∃ r', r' ∈ dedupAux seen l ∧ rowKey r' = rowKey r := by
  induction l generalizing seen with
  | nil => intro r hr; simp at hr
  | cons a rs ih =>
      intro r hr
      simp only [dedupAux]
      by_cases h : rowKey a ∈ seen
      · rw [if_pos h]
        rcases List.mem_cons.mp hr with hra | hrt
        · exact Or.inl (hra ▸ h)
        · exact ih seen r hrt
      · rw [if_neg h]
        rcases List.mem_cons.mp hr with hra | hrt
        · exact Or.inr ⟨a, List.mem_cons_self a _, by rw [hra]⟩
        · rcases ih (rowKey a :: seen) r hrt with hIn | ⟨r', hr', hk⟩
          · rcases List.mem_cons.mp hIn with hEq | hSeen
            · exact Or.inr ⟨a, List.mem_cons_self a _, hEq.symm⟩
            · exact Or.inl hSeen
          · exact Or.inr ⟨r', List.mem_cons_of_mem a hr', hk⟩

/-- Survivor keys are pairwise distinct. -/
lemma dedupAux_pairwise (seen : List String) (l : List Row) :
    (dedupAux seen l).Pairwise (fun a b => rowKey a ≠ rowKey b) := by
  induction l generalizing seen with
  | nil => simp [dedupAux]
  | cons a rs ih =>
      simp only [dedupAux]
      by_cases h : rowKey a ∈ seen
      · rw [if_pos h]; exact ih seen
      · rw [if_neg h]
        refine List.Pairwise.cons ?_ (ih (rowKey a :: seen))
        intro b hb hEq
        have := (dedupAux_first (rowKey a :: seen) rs b hb).1
        exact this (by simp [← hEq])

/-- If no key of `l` is in `seen` and keys of `l` are pairwise distinct,
the dedup loop keeps everything. -/
lemma dedupAux_of_fresh (seen : List String) (l : List Row)
    (hFresh : ∀ r ∈ l, rowKey r ∉ seen)
    (hPw : l.Pairwise (fun a b => rowKey a ≠ rowKey b)) :
    dedupAux seen l = l := by
  induction l generalizing seen with
  | nil => simp [dedupAux]
  | cons a rs ih =>
      simp only [dedupAux]
      rw [if_neg (hFresh a (List.mem_cons_self a _))]
      congr 1
      apply ih
      · intro r hr hIn
        rcases List.mem_cons.mp hIn with hEq | hSeen
        · exact ((List.pairwise_cons.mp hPw).1 r hr) hEq.symm
        · exact hFresh r (List.mem_cons_of_mem a hr) hSeen
      · exact (List.pairwise_cons.mp hPw).2

/-- C2: `dedup_rows` is idempotent; its output is a subsequence of the
input (so surviving rows keep their original relative order); each
survivor is the first-encountered row with its DedupKey; every input key
is represented by some survivor; and survivor keys are pairwise distinct
(so exactly one row per DedupKey survives). -/
theorem C2_dedup_rows_idempotent_first_wins (rows : List Row) :
    dedup_rows (dedup_rows rows) = dedup_rows rows
  ∧ List.Sublist (dedup_rows rows) rows
  ∧ (∀ r ∈ dedup_rows rows,
      rows.find? (fun x => rowKey x == rowKey r) = some r)
  ∧ (∀ r ∈ rows, ∃ r', r' ∈ dedup_rows rows ∧ rowKey r' = rowKey r)
  ∧ (dedup_rows rows).Pairwise (fun a b => rowKey a ≠ rowKey b) := by
  refine ⟨?_, dedupAux_sublist [] rows, ?_, ?_, dedupAux_pairwise [] rows⟩
  · exact dedupAux_of_fresh [] (dedup_rows rows)
      (fun r _ h => List.not_mem_nil _ h)
      (dedupAux_pairwise [] rows)
  · intro r hr
    exact (dedupAux_first [] rows r hr).2
  · intro r hr
    rcases dedupAux_covers [] rows r hr with hIn | hEx
    · exact absurd hIn (List.not_mem_nil _)
    · exact hEx

/-- Witness for C2 on a concrete row list with a duplicate `PERMALINK`. -/
theorem C2_dedup_rows_witness :
    dedup_rows (dedup_rows
        [[("PERMALINK", JVal.str "https://a")],
         [("PERMALINK", JVal.str "https://a")],
         [("PERMALINK", JVal.str "https://b")]])
      = dedup_rows
        [[("PERMALINK", JVal.str "https://a")],
         [("PERMALINK", JVal.str "https://a")],
         [("PERMALINK", JVal.str "https://b")]] :=
  (C2_dedup_rows_idempotent_first_wins _).1

/-! ## Paginated fetching
(`function_api_payload_from_sprinklr.py`, `set_page` lines 74-79,
`run_all` lines 115-160, `parse_rows_from_response` lines 250-266,
`gather_rows_from_data` lines 269-276)

The remote call `run_once` / `spr` is the external report-API collaborator,
modelled as a function from the request payload to its JSON response. -/

/-- Python dict assignment `p[k] = v`: replace in place, else append. -/
def setField : Row → String → JVal → Row
  | [], k, v => [(k, v)]
  | (k', v') :: rest, k, v =>
      if k' == k then (k', v) :: rest else (k', v') :: setField rest k v

/-- Python `int()` on a JSON-derived value (the payload's `page` and
`pageSize` are JSON numbers; other shapes raise in Python and are not
exercised). -/
def pyInt : JVal → Int
  | .num n => n
  | .bool true => 1
  | .bool false => 0
  | _ => 0

def rowGetD (r : Row) (k : String) (d : JVal) : JVal := (rowGet r k).getD d

/-- `set_page`: write `page` and (when given) `pageSize` into the payload. -/
def set_page (p : Row) (page : Int) (pageSize : Option Int) : Row :=
  let p1 := setField p "page" (.num page)
  match pageSize with
  | some ps => setField p1 "pageSize" (.num ps)
  | none => p1

/-- Stop condition 1 of `run_all`: `resp["data"]["hasMore"]` as a bool when
the response is a dict whose `data` is a dict containing `hasMore`. -/
def hasMoreOf (resp : JVal) : Option Bool :=
  match resp with
  | .obj fs =>
      match rowGet fs "data" with
      | some (.obj ds) =>
          match rowGet ds "hasMore" with
          | some v => some (jTruthy v)
          | none => none
      | _ => none
  | _ => none

/-- The `("rows", "tableData", "items", "result")` key scan shared by
`run_all` and `parse_rows_from_response`. -/
def altRows (fs : Row) : Option (List JVal) :=
  match rowGet fs "rows" with
  | some (.arr l) => some l
  | _ => match rowGet fs "tableData" with
    | some (.arr l) => some l
    | _ => match rowGet fs "items" with
      | some (.arr l) => some l
      | _ => match rowGet fs "result" with
        | some (.arr l) => some l
        | _ => none

/-- Stop condition 2 of `run_all`: the row list of a page, if any. -/
def stopRowsOf (resp : JVal) : Option (List JVal) :=
  match resp with
  | .obj fs =>
      match rowGet fs "data" with
      | some (.obj ds) =>
          match rowGet ds "data" with
          | some (.arr rows) => some rows
          | _ => altRows fs
      | _ => altRows fs
  | _ => none

/-- `max_pages is not None and (i + 1) >= max_pages`. -/
def capStopB (maxPages : Option Int) (i : Nat) : Bool :=
  match maxPages with
  | some m => decide (m ≤ (i : Int) + 1)
  | none => false

/-- The `while True` loop of `run_all`, mirrored with explicit fuel.
The returned flag is `true` when the loop exited through one of its own
stop conditions (the Python loop has no fuel; every theorem about a
terminated run carries the flag or enough fuel). -/
def run_allAux (api : Row → JVal) (payload : Row) (startPage pageSize : Int)
    (maxPages : Option Int) : Nat → Nat → List JVal → List JVal × Bool
  | _, 0, acc => (acc, false)
  | i, fuel + 1, acc =>
      let resp := api (set_page payload (startPage + i) (some pageSize))
      let acc' := acc ++ [resp]
      if capStopB maxPages i then (acc', true)
      else
        match hasMoreOf resp with
        | some b =>
            if b then run_allAux api payload startPage pageSize maxPages (i + 1) fuel acc'
            else (acc', true)
        | none =>
            match stopRowsOf resp with
            | none => (acc', true)
            | some rows =>
                if (rows.length : Int) < pageSize then (acc', true)
                else run_allAux api payload startPage pageSize maxPages (i + 1) fuel acc'

/-- `run_all`: fetch pages from the payload's starting page until a stop
condition fires (or fuel runs out). -/
def run_all (api : Row → JVal) (payload : Row) (maxPages : Option Int)
    (fuel : Nat) : List JVal × Bool :=
  run_allAux api payload (pyInt (rowGetD payload "page" (.num 0)))
    (pyInt (rowGetD payload "pageSize" (.num 20))) maxPages 0 fuel []

/-- `parse_rows_from_response`: normalise one response to a row list. -/
def parse_rows_from_response (resp : JVal) : List JVal :=
  match resp with
  | .obj fs =>
      (match rowGet fs "data" with
      | some (.obj ds) =>
          match rowGet ds "data" with
          | some (.arr rows) => some rows
          | _ => altRows fs
      | _ => altRows fs).getD [resp]
  | _ => [resp]

/-- `gather_rows_from_data` on a list of page responses. -/
def gather_rows_from_data (resps : List JVal) : List JVal :=
  (resps.map parse_rows_from_response).flatten

/-- The gathered rows are dicts in every exercised scenario (a non-dict
row would raise inside `_extract_row_key`). -/
def asRow : JVal → Row
  | .obj fs => fs
  | _ => []

/-- The tail of `fetch_sprinklr_rows` (lines 455-462): normalise the page
responses to rows and deduplicate. -/
def fetch_pipeline_rows (resps : List JVal) : List Row :=
  dedup_rows ((gather_rows_from_data resps).map asRow)

/-- The spec's continuation rule, stated from its words: the page cap is a
hard ceiling checked first; an explicit `hasMore` flag, when present, alone
determines continuation; otherwise the fetch continues exactly when the
page carries at least `pageSize` rows. -/
def specContinue (resp : JVal) (pageSize : Int) (pageOrdinal : Nat)
    (maxPages : Option Int) : Bool :=
  !(capStopB maxPages pageOrdinal)
  && (match hasMoreOf resp with
      | some b => b
      | none =>
          match stopRowsOf resp with
          | some rows => !((rows.length : Int) < pageSize)
          | none => false)

lemma run_allAux_step (api : Row → JVal) (payload : Row)
    (startPage pageSize : Int) (maxPages : Option Int)
    (i fuel : Nat) (acc : List JVal) :
    run_allAux api payload startPage pageSize maxPages i (fuel + 1) acc =
      (let resp := api (set_page payload (startPage + i) (some pageSize));
       if specContinue resp pageSize i maxPages then
         run_allAux api payload startPage pageSize maxPages (i + 1) fuel
           (acc ++ [resp])
       else (acc ++ [resp], true)) := by
  simp only [run_allAux, specContinue]
  by_cases hCap : capStopB maxPages i = true
  · simp [hCap]
  · rw [Bool.not_eq_true] at hCap
    simp only [hCap, Bool.false_eq_true, if_false, Bool.not_false, Bool.true_and]
    cases hM : hasMoreOf (api (set_page payload (startPage + i) (some pageSize))) with
    | some b => cases b <;> simp [hM]
    | none =>
        cases hR : stopRowsOf (api (set_page payload (startPage + i) (some pageSize))) with
        | some rows =>
            by_cases hLen : ((rows.length : Int) < pageSize) <;> simp [hM, hR, hLen]
        | none => simp [hM, hR]

/-- The cap is a hard ceiling on pages, whatever the API returns. -/
lemma run_allAux_cap (api : Row → JVal) (payload : Row)
    (startPage pageSize : Int) (m : Int) :
    ∀ (fuel i : Nat) (acc : List JVal), (i : Int) < m →
      (run_allAux api payload startPage pageSize (some m) i fuel acc).1.length
        ≤ acc.length + (m.toNat - i) := by
  intro fuel
  induction fuel with
  | zero => intro i acc _; simp [run_allAux]
  | succ fuel ih =>
      intro i acc hi
      rw [run_allAux_step]
      simp only []
      by_cases hc : specContinue
          (api (set_page payload (startPage + i) (some pageSize)))
          pageSize i (some m) = true
      · rw [if_pos hc]
        have hcap : ¬ (m ≤ (i : Int) + 1) := by
          by_contra hX
          have hcs : capStopB (some m) i = true := by simp [capStopB, hX]
          simp [specContinue, hcs] at hc
        have := ih (i + 1) (acc ++ [api (set_page payload (startPage + i) (some pageSize))]) (by push_cast; omega)
        simp only [List.length_append, List.length_singleton] at this ⊢
        have hlt : (i : Int) + 1 < m := by omega
        have : (run_allAux api payload startPage pageSize (some m) (i + 1) fuel
            (acc ++ [api (set_page payload (startPage + i) (some pageSize))])).1.length
            ≤ acc.length + 1 + (m.toNat - (i + 1)) := this
        omega
      · rw [if_neg hc]
        simp only [List.length_append, List.length_singleton]
        omega

/-- Scenario row `n`: a report row with a distinct `PERMALINK`. -/
def scenarioRow (n : Nat) : Row :=
  [("PERMALINK", JVal.str ("https://example.com/" ++ toString n))]

/-- Scenario response: page 0 with 5 rows and `hasMore = false`. -/
def scenarioResp : JVal :=
  .obj [("data", .obj
          [("data", .arr ((List.range 5).map (fun n => .obj (scenarioRow n)))),
           ("hasMore", .bool false)]),
        ("errors", .arr [])]

def scenarioPayload : Row := [("page", .num 0), ("pageSize", .num 20)]

def scenarioApi : Row → JVal := fun _ => scenarioResp

/-- C6: each `run_all` iteration fetches one page and continues exactly as
the spec's ordered stop conditions dictate (cap first as a hard ceiling,
then an explicit `hasMore` flag alone, else the strict row-count test); a
cap of `m ≥ 1` bounds the number of pages by `m`; and in the concrete
scenario (`hasMore=false` on page 0 with 5 rows, `pageSize=20`) the fetch
stops after exactly one page and the pipeline returns exactly those 5 rows
after deduplication. -/
theorem C6_run_all_stop_conditions :
    (∀ (api : Row → JVal) (payload : Row) (startPage pageSize : Int)
        (maxPages : Option Int) (i fuel : Nat) (acc : List JVal),
      run_allAux api payload startPage pageSize maxPages i (fuel + 1) acc =
        (let resp := api (set_page payload (startPage + i) (some pageSize));
         if specContinue resp pageSize i maxPages then
           run_allAux api payload startPage pageSize maxPages (i + 1) fuel
             (acc ++ [resp])
         else (acc ++ [resp], true)))
  ∧ (∀ (api : Row → JVal) (payload : Row) (m : Int) (fuel : Nat), 1 ≤ m →
      (run_all api payload (some m) fuel).1.length ≤ m.toNat)
  ∧ run_all scenarioApi scenarioPayload none 5 = ([scenarioResp], true)
  ∧ fetch_pipeline_rows [scenarioResp] = (List.range 5).map scenarioRow := by
  refine ⟨run_allAux_step, ?_, rfl, rfl⟩
  intro api payload m fuel hm
  have h := run_allAux_cap api payload
    (pyInt (rowGetD payload "page" (.num 0)))
    (pyInt (rowGetD payload "pageSize" (.num 20))) m fuel 0 [] (by omega)
  simpa [run_all] using h

/-- Witness for C6: the cap bound applied at `m = 2` in the scenario. -/
theorem C6_run_all_stop_conditions_witness :
    1 ≤ (2 : Int) ∧
    (run_all scenarioApi scenarioPayload (some 2) 5).1.length ≤ (2 : Int).toNat :=
  ⟨by decide,
   C6_run_all_stop_conditions.2.1 scenarioApi scenarioPayload 2 5 (by decide)⟩

/-! ## Topic-id batching
(`function_api_payload_from_sprinklr.py`, `_get_topic_ids` lines 342-347,
`_set_topic_ids` lines 350-365, `_chunks` lines 368-370,
`run_with_topic_batches` lines 373-392) -/

/-- `_chunks(lst, n)`: consecutive slices of length `n`.  `n = 0` raises
`ValueError` in Python (`range` step 0); the `0` branch is an arbitrary
total value and is never exercised (all theorems assume `1 ≤ n`). -/
def _chunks {α : Type} : Nat → List α → List (List α)
  | _, [] => []
  | 0, l => [l]
  | n + 1, x :: xs =>
      (x :: xs).take (n + 1) :: _chunks (n + 1) ((x :: xs).drop (n + 1))
termination_by n l => l.length
decreasing_by
  simp only [List.length_drop, List.length_cons]
  omega

lemma chunks_join_aux {α : Type} (m : Nat) :
    ∀ (k : Nat) (l : List α), l.length ≤ k →
      (_chunks (m + 1) l).flatten = l := by
  intro k
  induction k with
  | zero =>
      intro l hl
      have : l = [] := List.eq_nil_of_length_eq_zero (Nat.le_zero.mp hl)
      subst this
      simp [_chunks]
  | succ k ih =>
      intro l hl
      cases l with
      | nil => simp [_chunks]
      | cons x xs =>
          simp only [_chunks, List.flatten_cons]
          rw [ih ((x :: xs).drop (m + 1))
            (by simp only [List.length_drop, List.length_cons]
                simp only [List.length_cons] at hl
                omega)]
          exact List.take_append_drop (m + 1) (x :: xs)

lemma chunks_join {α : Type} (n : Nat) (hn : 1 ≤ n) (l : List α) :
    (_chunks n l).flatten = l := by
  obtain ⟨m, rfl⟩ : ∃ m, n = m + 1 := ⟨n - 1, by omega⟩
  exact chunks_join_aux m l.length l (Nat.le_refl _)

lemma chunks_mem_aux {α : Type} (m : Nat) :
    ∀ (k : Nat) (l : List α), l.length ≤ k →
      ∀ c ∈ _chunks (m + 1) l, c.length ≤ m + 1 ∧ c ≠ [] := by
  intro k
  induction k with
  | zero =>
      intro l hl c hc
      have : l = [] := List.eq_nil_of_length_eq_zero (Nat.le_zero.mp hl)
      subst this
      simp [_chunks] at hc
  | succ k ih =>
      intro l hl c hc
      cases l with
      | nil => simp [_chunks] at hc
      | cons x xs =>
          simp only [_chunks] at hc
          rcases List.mem_cons.mp hc with hc1 | hc2
          · subst hc1
            constructor
            · rw [List.length_take]; omega
            · simp [List.take_succ_cons]
          · exact ih ((x :: xs).drop (m + 1))
              (by simp only [List.length_drop, List.length_cons]
                  simp only [List.length_cons] at hl
                  omega) c hc2

lemma chunks_mem {α : Type} (n : Nat) (hn : 1 ≤ n) (l : List α) :
    ∀ c ∈ _chunks n l, c.length ≤ n ∧ c ≠ [] := by
  obtain ⟨m, rfl⟩ : ∃ m, n = m + 1 := ⟨n - 1, by omega⟩
  exact chunks_mem_aux m l.length l (Nat.le_refl _)

/-- Is `f` the `TOPIC_IDS` filter? (`f.get("dimensionName") == "TOPIC_IDS"`) -/
def isTopicFilter (f : JVal) : Bool :=
  match f with
  | .obj fs =>
      match rowGet fs "dimensionName" with
      | some (.str s) => s == "TOPIC_IDS"
      | _ => false
  | _ => false

/-- `payload.get("filters", [])` as a list (a non-list value would raise
when iterated in Python). -/
def filtersOf (payload : Row) : List JVal :=
  match rowGet payload "filters" with
  | some (.arr fs) => fs
  | _ => []

/-- `f.get("values", [])` as a list. -/
def valuesOf (f : JVal) : List JVal :=
  match f with
  | .obj fs =>
      match rowGet fs "values" with
      | some (.arr vs) => vs
      | _ => []
  | _ => []

def getTopicIdsFrom : List JVal → List String
  | [] => []
  | f :: rest =>
      if isTopicFilter f then ((valuesOf f).filter jTruthy).map pyStr
      else getTopicIdsFrom rest

/-- `_get_topic_ids`: the truthy values of the first `TOPIC_IDS` filter,
stringified. -/
def _get_topic_ids (payload : Row) : List String :=
  getTopicIdsFrom (filtersOf payload)

def topicFilter (ids : List String) : JVal :=
  .obj [("dimensionName", .str "TOPIC_IDS"), ("filterType", .str "IN"),
        ("values", .arr (ids.map .str))]

/-- The filter-rebuild loop of `_set_topic_ids` (returns the new filter
list and the `found` flag). -/
def setTopicFilters (ids : List String) : List JVal → List JVal × Bool
  | [] => ([], false)
  | f :: rest =>
      let pr := setTopicFilters ids rest
      if isTopicFilter f then
        ((if ids.isEmpty then pr.1 else topicFilter ids :: pr.1), true)
      else (f :: pr.1, pr.2)

/-- `_set_topic_ids`: replace (or append) the `TOPIC_IDS` filter. -/
def _set_topic_ids (payload : Row) (ids : List String) : Row :=
  let pr := setTopicFilters ids (filtersOf payload)
  let newFilters :=
    if !pr.2 && !ids.isEmpty then pr.1 ++ [topicFilter ids] else pr.1
  setField payload "filters" (.arr newFilters)

/-- The `combined.extend(part)` loop over batches (each batch runs
`run_all` with no page cap; the flag records that every batch's page loop
terminated within its fuel). -/
def combineBatches (api : Row → JVal) (payload : Row) (fuel : Nat) :
    List (List String) → List JVal × Bool
  | [] => ([], true)
  | b :: bs =>
      let part := run_all api (_set_topic_ids payload b) none fuel
      let rest := combineBatches api payload fuel bs
      (part.1 ++ rest.1, part.2 && rest.2)

/-- `run_with_topic_batches`: split `TOPIC_IDS` into batches of at most
`max_ids` when it is oversized, else one unsplit `run_all`. -/
def run_with_topic_batches (api : Row → JVal) (payload : Row)
    (maxIds : Nat) (fuel : Nat) : List JVal × Bool :=
  let ids := _get_topic_ids payload
  if ids.isEmpty || ids.length ≤ maxIds then run_all api payload none fuel
  else combineBatches api payload fuel (_chunks maxIds ids)

lemma combineBatches_fst (api : Row → JVal) (payload : Row) (fuel : Nat) :
    ∀ bs : List (List String),
      (combineBatches api payload fuel bs).1 =
        (bs.map (fun b => (run_all api (_set_topic_ids payload b) none fuel).1)).flatten := by
  intro bs
  induction bs with
  | nil => simp [combineBatches]
  | cons b bs ih => simp [combineBatches, ih]

/-- C8: when the `TOPIC_IDS` filter holds more values than the batch size,
the engine splits it into consecutive batches that concatenate back to the
original value list (jointly covering every value), each of size at most
`maxIds` and non-empty — pairwise disjoint as value sets whenever the ids
are distinct — and the result is the concatenation of the full `run_all`
page lists of all batches, each run with no page cap; when the filter does
not exceed the batch size (or is absent), a single unsplit `run_all` is
performed. -/
theorem C8_topic_batch_split (api : Row → JVal) (payload : Row)
    (maxIds fuel : Nat) (hm : 1 ≤ maxIds) :
    (maxIds < (_get_topic_ids payload).length →
        (_chunks maxIds (_get_topic_ids payload)).flatten = _get_topic_ids payload
      ∧ (∀ c ∈ _chunks maxIds (_get_topic_ids payload),
            c.length ≤ maxIds ∧ c ≠ [])
      ∧ ((_get_topic_ids payload).Nodup →
            (_chunks maxIds (_get_topic_ids payload)).Pairwise List.Disjoint)
      ∧ (run_with_topic_batches api payload maxIds fuel).1 =
          ((_chunks maxIds (_get_topic_ids payload)).map
            (fun b => (run_all api (_set_topic_ids payload b) none fuel).1)).flatten)
  ∧ ((_get_topic_ids payload).length ≤ maxIds →
      run_with_topic_batches api payload maxIds fuel =
        run_all api payload none fuel) := by
  constructor
  · intro hlen
    have hjoin := chunks_join maxIds hm (_get_topic_ids payload)
    refine ⟨hjoin, chunks_mem maxIds hm _, ?_, ?_⟩
    · intro hnd
      have : ((_chunks maxIds (_get_topic_ids payload)).flatten).Nodup := by
        rw [hjoin]; exact hnd
      exact (List.nodup_flatten.mp this).2
    · have hne : ¬((_get_topic_ids payload).isEmpty
          || (_get_topic_ids payload).length ≤ maxIds) = true := by
        simp only [Bool.or_eq_true, decide_eq_true_eq, List.isEmpty_iff,
          not_or]
        constructor
        · intro hNil
          rw [hNil] at hlen
          simp at hlen
        · omega
      rw [run_with_topic_batches, if_neg hne]
      exact combineBatches_fst api payload fuel _
  · intro hlen
    rw [run_with_topic_batches, if_pos]
    simp [hlen]

/-- A payload whose `TOPIC_IDS` filter carries three ids. -/
def batchPayload : Row :=
  [("filters", .arr
    [.obj [("dimensionName", .str "TOPIC_IDS"), ("filterType", .str "IN"),
           ("values", .arr [.str "11", .str "22", .str "33"])]])]

/-- Witness for C8: three ids split into batches of at most two. -/
theorem C8_topic_batch_split_witness :
    1 ≤ 2 ∧ 2 < (_get_topic_ids batchPayload).length ∧
    (_chunks 2 (_get_topic_ids batchPayload)).flatten = _get_topic_ids batchPayload :=
  ⟨by decide, by decide,
   ((C8_topic_batch_split scenarioApi batchPayload 2 5 (by decide)).1
      (by decide)).1⟩

/-! ## GenAI rate gate (`main.py`, `_throttle_genai` lines 94-102)

```python
with _GENAI_LOCK:
    now = time.time()
    wait = (_GENAI_LAST_TS + GENAI_RATE_INTERVAL_SEC) - now
    if wait > 0:
        time.sleep(wait)
    _GENAI_LAST_TS = time.time()
```

Controlled-clock model: the lock serialises the calls of one process, so a
run is a sequence of steps; `d1` is the time elapsing before the first
`time.time()` read and `d2` the extra time (beyond the requested sleep)
elapsing before the second read — both adversarial but non-negative. -/

structure ThrottleState where
  last : ℚ
  clock : ℚ

/-- One `_throttle_genai()` call under the controlled clock. -/
def throttle_genai (interval d1 d2 : ℚ) (s : ThrottleState) : ThrottleState :=
  let now := s.clock + d1
  let wait := (s.last + interval) - now
  let afterSleep := if 0 < wait then now + wait else now
  let t2 := afterSleep + d2
  { last := t2, clock := t2 }

/-- The recorded `_GENAI_LAST_TS` values of a sequence of throttled calls
(each immediately precedes the remote invocation). -/
def throttleTrace (interval : ℚ) : List (ℚ × ℚ) → ThrottleState → List ℚ
  | [], _ => []
  | d :: ds, s =>
      let step := throttle_genai interval d.1 d.2 s
      step.last :: throttleTrace interval ds step

lemma throttle_genai_last_ge (interval d1 d2 : ℚ) (s : ThrottleState)
    (hd2 : 0 ≤ d2) :
    s.last + interval ≤ (throttle_genai interval d1 d2 s).last := by
  simp only [throttle_genai]
  by_cases h : 0 < s.last + interval - (s.clock + d1)
  · rw [if_pos h]; linarith
  · rw [if_neg h]; push_neg at h; linarith

lemma throttleTrace_chain (interval : ℚ) :
    ∀ (ds : List (ℚ × ℚ)), (∀ d ∈ ds, 0 ≤ d.2) → ∀ s : ThrottleState,
      List.Chain' (fun a b => a + interval ≤ b) (throttleTrace interval ds s)
      ∧ (∀ t ∈ (throttleTrace interval ds s).head?,
          s.last + interval ≤ t) := by
  intro ds
  induction ds with
  | nil => intro _ s; simp [throttleTrace]
  | cons d ds ih =>
      intro hds s
      have hd2 : 0 ≤ d.2 := hds d (List.mem_cons_self d ds)
      have hds' : ∀ d' ∈ ds, 0 ≤ d'.2 :=
        fun d' hd' => hds d' (List.mem_cons_of_mem d hd')
      obtain ⟨ihChain, ihHead⟩ := ih hds' (throttle_genai interval d.1 d.2 s)
      constructor
      · rw [throttleTrace, List.chain'_cons']
        exact ⟨ihHead, ihChain⟩
      · intro t ht
        simp only [throttleTrace, List.head?_cons, Option.mem_def,
          Option.some.injEq] at ht
        subst ht
        exact throttle_genai_last_ge interval d.1 d.2 s hd2

/-- C3: under the controlled clock, any serialised sequence of
`_throttle_genai` calls records invocation timestamps that are at least
`interval` apart (no two successive invocations start closer together);
each single call blocks until `now ≥ lastInvocationTimestamp + interval`
(the new timestamp is at least the old plus the interval) and then sets
`lastInvocationTimestamp` to the current clock reading. -/
theorem C3_throttle_min_interval (interval : ℚ) (ds : List (ℚ × ℚ))
    (s0 : ThrottleState) (hds : ∀ d ∈ ds, 0 ≤ d.2) :
    List.Chain' (fun a b => a + interval ≤ b) (throttleTrace interval ds s0)
  ∧ (∀ d1 d2 s, 0 ≤ d2 →
      s.last + interval ≤ (throttle_genai interval d1 d2 s).last)
  ∧ (∀ d1 d2 s,
      (throttle_genai interval d1 d2 s).clock
        = (throttle_genai interval d1 d2 s).last) :=
  ⟨(throttleTrace_chain interval ds hds s0).1,
   fun d1 d2 s hd2 => throttle_genai_last_ge interval d1 d2 s hd2,
   fun _ _ _ => rfl⟩

/-- Witness for C3: three calls at interval 3 from a zero state. -/
theorem C3_throttle_min_interval_witness :
    List.Chain' (fun a b => a + 3 ≤ b)
      (throttleTrace 3 [(0, 0), (1, 0), (0, 2)] ⟨0, 0⟩) :=
  (C3_throttle_min_interval 3 [(0, 0), (1, 0), (0, 2)] ⟨0, 0⟩
    (by intro d hd; fin_cases hd <;> norm_num)).1

/-! ## GenAI backoff (`main.py`, `_genai_with_backoff_call` lines 105-121)

The zero-argument remote call is modelled by the outcome of each attempt
(`outcomes i` is what the `i`-th `call()` would do); `jitter i` is the
value `random.uniform(0.0, 0.8)` drawn before the `i`-th retry sleep. -/

def charsPrefixOfB : List Char → List Char → Bool
  | [], _ => true
  | _ :: _, [] => false
  | a :: as, b :: bs => a == b && charsPrefixOfB as bs

def charsInfixOfB (n : List Char) : List Char → Bool
  | [] => charsPrefixOfB n []
  | b :: bs => charsPrefixOfB n (b :: bs) || charsInfixOfB n bs

/-- Python `needle in hay` on strings. -/
def containsSub (needle hay : String) : Bool :=
  charsInfixOfB needle.toList hay.toList

/-- Python `str.lower()` (ASCII case folding). -/
def pyLower (s : String) : String := String.mk (s.toList.map Char.toLower)

def strStartsWithB (p s : String) : Bool :=
  charsPrefixOfB p.toList s.toList

def strEndsWithB (p s : String) : Bool :=
  charsPrefixOfB p.toList.reverse s.toList.reverse

/-- The capacity-exhaustion test of `_genai_with_backoff_call`:
`("RESOURCE_EXHAUSTED" in s) or (" 429" in s) or ('"code": 429' in s)
or ("quota" in s.lower())`. -/
def isCapacitySignal (s : String) : Bool :=
  containsSub "RESOURCE_EXHAUSTED" s || containsSub " 429" s ||
  containsSub "\"code\": 429" s || containsSub "quota" (pyLower s)

inductive GenAIResult (α : Type) : Type where
  | ok : α → GenAIResult α
  | err : String → GenAIResult α
  | exhausted : GenAIResult α

/-- The retry loop, returning the outcome and the list of sleeps performed
(each sleep is `delay + jitter`; `delay` doubles, capped at 20). -/
def backoffAux {α : Type} (outcomes : Nat → Except String α)
    (jitter : Nat → ℚ) : Nat → ℚ → Nat → GenAIResult α × List ℚ
  | _, _, 0 => (.exhausted, [])
  | attempt, delay, fuel + 1 =>
      match outcomes attempt with
      | .ok a => (.ok a, [])
      | .error s =>
          if isCapacitySignal s then
            let next := backoffAux outcomes jitter (attempt + 1)
              (min (delay * 2) 20) fuel
            (next.1, (delay + jitter attempt) :: next.2)
          else (.err s, [])

/-- `_genai_with_backoff_call`: initial delay 1.0, at most 7 attempts. -/
def _genai_with_backoff_call {α : Type} (outcomes : Nat → Except String α)
    (jitter : Nat → ℚ) : GenAIResult α × List ℚ :=
  backoffAux outcomes jitter 0 1 7

lemma backoffAux_err {α : Type} (outcomes : Nat → Except String α)
    (jitter : Nat → ℚ) (s : String) (hs : isCapacitySignal s = false) :
    ∀ (fuel j attempt : Nat) (delay : ℚ), j < fuel →
      (∀ i, i < j → ∃ t, outcomes (attempt + i) = .error t
          ∧ isCapacitySignal t = true) →
      outcomes (attempt + j) = .error s →
      (backoffAux outcomes jitter attempt delay fuel).1 = .err s
      ∧ (backoffAux outcomes jitter attempt delay fuel).2.length = j := by
  intro fuel
  induction fuel with
  | zero => intro j attempt delay hj; omega
  | succ fuel ih =>
      intro j attempt delay hj hcap hj_err
      cases j with
      | zero =>
          simp only [Nat.add_zero] at hj_err
          simp [backoffAux, hj_err, hs]
      | succ j =>
          obtain ⟨t, ht, htc⟩ := hcap 0 (Nat.succ_pos j)
          simp only [Nat.add_zero] at ht
          have hrec := ih j (attempt + 1) (min (delay * 2) 20)
            (Nat.lt_of_succ_lt_succ hj)
            (fun i hi => by
              obtain ⟨u, hu, huc⟩ := hcap (i + 1) (Nat.succ_lt_succ hi)
              refine ⟨u, ?_, huc⟩
              have hx : attempt + 1 + i = attempt + (i + 1) := by omega
              rw [hx]; exact hu)
            (by
              have hx : attempt + 1 + j = attempt + (j + 1) := by omega
              rw [hx]; exact hj_err)
          simp [backoffAux, ht, htc, hrec.1, hrec.2]

lemma backoffAux_ok {α : Type} (outcomes : Nat → Except String α)
    (jitter : Nat → ℚ) (a : α) :
    ∀ (fuel j attempt : Nat) (delay : ℚ), j < fuel →
      (∀ i, i < j → ∃ t, outcomes (attempt + i) = .error t
          ∧ isCapacitySignal t = true) →
      outcomes (attempt + j) = .ok a →
      (backoffAux outcomes jitter attempt delay fuel).1 = .ok a
      ∧ (backoffAux outcomes jitter attempt delay fuel).2.length = j := by
  intro fuel
  induction fuel with
  | zero => intro j attempt delay hj; omega
  | succ fuel ih =>
      intro j attempt delay hj hcap hj_ok
      cases j with
      | zero =>
          simp only [Nat.add_zero] at hj_ok
          simp [backoffAux, hj_ok]
      | succ j =>
          obtain ⟨t, ht, htc⟩ := hcap 0 (Nat.succ_pos j)
          simp only [Nat.add_zero] at ht
          have hrec := ih j (attempt + 1) (min (delay * 2) 20)
            (Nat.lt_of_succ_lt_succ hj)
            (fun i hi => by
              obtain ⟨u, hu, huc⟩ := hcap (i + 1) (Nat.succ_lt_succ hi)
              refine ⟨u, ?_, huc⟩
              have hx : attempt + 1 + i = attempt + (i + 1) := by omega
              rw [hx]; exact hu)
            (by
              have hx : attempt + 1 + j = attempt + (j + 1) := by omega
              rw [hx]; exact hj_ok)
          simp [backoffAux, ht, htc, hrec.1, hrec.2]

/-- C5: if all 7 attempts fail with capacity signals the call raises the
capacity-exhausted error after sleeping `backoff + jitter` each time with
backoff doubling from 1 and capped at 20 (`1,2,4,8,16,20,20`); a
non-capacity failure after `j` capacity failures propagates immediately
(exactly `j` sleeps, none for the failing attempt); a success after `j`
capacity failures returns its value. -/
theorem C5_backoff_retry_policy :
    (∀ {α : Type} (outcomes : Nat → Except String α) (jitter : Nat → ℚ)
        (e : Nat → String),
      (∀ i, i < 7 → outcomes i = .error (e i)
          ∧ isCapacitySignal (e i) = true) →
      _genai_with_backoff_call outcomes jitter =
        (.exhausted, [1 + jitter 0, 2 + jitter 1, 4 + jitter 2,
          8 + jitter 3, 16 + jitter 4, 20 + jitter 5, 20 + jitter 6]))
  ∧ (∀ {α : Type} (outcomes : Nat → Except String α) (jitter : Nat → ℚ)
        (s : String) (j : Nat), j < 7 → isCapacitySignal s = false →
      (∀ i, i < j → ∃ t, outcomes i = .error t
          ∧ isCapacitySignal t = true) →
      outcomes j = .error s →
      (_genai_with_backoff_call outcomes jitter).1 = .err s
      ∧ (_genai_with_backoff_call outcomes jitter).2.length = j)
  ∧ (∀ {α : Type} (outcomes : Nat → Except String α) (jitter : Nat → ℚ)
        (a : α) (j : Nat), j < 7 →
      (∀ i, i < j → ∃ t, outcomes i = .error t
          ∧ isCapacitySignal t = true) →
      outcomes j = .ok a →
      (_genai_with_backoff_call outcomes jitter).1 = .ok a
      ∧ (_genai_with_backoff_call outcomes jitter).2.length = j) := by
  refine ⟨?_, ?_, ?_⟩
  · intro α outcomes jitter e h
    have h0 := h 0 (by norm_num)
    have h1 := h 1 (by norm_num)
    have h2 := h 2 (by norm_num)
    have h3 := h 3 (by norm_num)
    have h4 := h 4 (by norm_num)
    have h5 := h 5 (by norm_num)
    have h6 := h 6 (by norm_num)
    simp only [_genai_with_backoff_call, backoffAux, h0.1, h0.2, h1.1, h1.2,
      h2.1, h2.2, h3.1, h3.2, h4.1, h4.2, h5.1, h5.2, h6.1, h6.2, if_true]
    norm_num [min_def]
  · intro α outcomes jitter s j hj hs hcap hjerr
    exact backoffAux_err outcomes jitter s hs 7 j 0 1 hj
      (fun i hi => by simpa using hcap i hi) (by simpa using hjerr)
  · intro α outcomes jitter a j hj hcap hjok
    exact backoffAux_ok outcomes jitter a 7 j 0 1 hj
      (fun i hi => by simpa using hcap i hi) (by simpa using hjok)

/-- Witness for C5: every attempt fails with `RESOURCE_EXHAUSTED`. -/
theorem C5_backoff_retry_policy_witness :
    _genai_with_backoff_call (α := Unit)
        (fun _ => .error "RESOURCE_EXHAUSTED") (fun _ => 0)
      = (.exhausted, [1 + 0, 2 + 0, 4 + 0, 8 + 0, 16 + 0, 20 + 0, 20 + 0]) :=
  by
  have hc : isCapacitySignal "RESOURCE_EXHAUSTED" = true := by decide
  exact C5_backoff_retry_policy.1 (fun _ => .error "RESOURCE_EXHAUSTED")
    (fun _ => 0) (fun _ => "RESOURCE_EXHAUSTED")
    (fun i _ => ⟨rfl, hc⟩)

/-! ## Article extraction post-processing
(`main.py`, `_norm` lines 532-539, `_is_noise_line` lines 588-603,
`classify_and_extract_article` lines 606-669)

The extraction model's parsed response is a list of line dicts; each is
modelled with the coercions the code applies already resolved to types
(`index` via `int(... or 0)`, `confidence` via `float(... or 0)` as a
rational, `label`/`text` as strings; the code's `.strip().lower()` on the
label is applied inside the functions below). -/

/-- Python `str.strip()` whitespace (ASCII whitespace plus NBSP and
ideographic space; the full Unicode table is not modelled). -/
def pyIsSpace (c : Char) : Bool :=
  c = ' ' || c = '\t' || c = '\n' || c = '\r' || c = '\x0b' || c = '\x0c'
    || c = '\u00a0' || c = '\u3000'

def pyStrip (s : String) : String :=
  String.mk (((s.toList.dropWhile pyIsSpace).reverse.dropWhile pyIsSpace).reverse)

/-- Python `\w` (a word character): ASCII alphanumerics, underscore, and —
as an approximation of the Unicode table — every non-ASCII character (the
non-ASCII inputs exercised here are CJK word characters). -/
def isWordChar (c : Char) : Bool :=
  c.isAlphanum || c = '_' || c.val ≥ 128

/-- `re.sub(r"[\s\u3000]+", " ", ...)`: each maximal whitespace run
becomes one space (`inWs` records whether the previous character was
whitespace). -/
def collapseWsAux : Bool → List Char → List Char
  | _, [] => []
  | inWs, c :: cs =>
      if pyIsSpace c then
        if inWs then collapseWsAux true cs else ' ' :: collapseWsAux true cs
      else c :: collapseWsAux false cs

def collapseWs (l : List Char) : List Char := collapseWsAux false l

/-- `_norm`: NFKC-normalise (modelled as the identity — it is the identity
on the ASCII range), collapse whitespace runs, strip, delete `[\W_]+`,
lowercase. -/
def _norm (s : String) : String :=
  let collapsed := String.mk (collapseWs s.toList)
  let stripped := pyStrip collapsed
  String.mk ((stripped.toList.filter
    (fun c => isWordChar c && c != '_')).map Char.toLower)

/-- Remainder of `t` after the literal prefix `a`, if `a` is a prefix. -/
def afterPrefix : List Char → List Char → Option (List Char)
  | [], t => some t
  | _ :: _, [] => none
  | x :: xs, y :: ys => if x == y then afterPrefix xs ys else none

/-- Does `a ++ \s* ++ b` match at the head of `t`? -/
def matchSeqWsHere (a b t : List Char) : Bool :=
  match afterPrefix a t with
  | some rest => charsPrefixOfB b (rest.dropWhile pyIsSpace)
  | none => false

/-- `re.search` for the pattern `a\s*b`. -/
def searchSeqWs (a b : String) : List Char → Bool
  | [] => matchSeqWsHere a.toList b.toList []
  | c :: cs => matchSeqWsHere a.toList b.toList (c :: cs) || searchSeqWs a b cs

/-- `^\s*Related\s+Articles?\s*$` (case-insensitive, on stripped text). -/
def relatedArticlesPat (t : String) : Bool :=
  match afterPrefix "related".toList (pyLower t).toList with
  | some rest =>
      !(rest.takeWhile pyIsSpace).isEmpty
        && (rest.dropWhile pyIsSpace == "article".toList
            || rest.dropWhile pyIsSpace == "articles".toList)
  | none => false

/-- `^\s*W\b` for a leading keyword `w` (case-insensitive, stripped text):
`w` is a prefix and the next character, if any, is not a word character. -/
def leadWordPat (w : String) (t : String) : Bool :=
  match afterPrefix w.toList (pyLower t).toList with
  | some [] => true
  | some (c :: _) => !(isWordChar c)
  | none => false

/-- `_NOISE_RE.search(t)` on already-stripped `t`: the caption / nav /
credit patterns of `_NOISE_PATTERNS`, pattern by pattern. -/
def noiseRegexMatch (t : String) : Bool :=
  t == "関連記事" || t == "関連キーワード"
  || strEndsWithB "提供" t || strEndsWithB "提供)" t
  || strStartsWithB "写真:" t || strStartsWithB "写真：" t
  || strEndsWithB "記者" t
  || searchSeqWs "관련" "기사" t.toList
  || searchSeqWs "관련" "키워드" t.toList
  || strEndsWithB "제공" t || strEndsWithB "제공)" t
  || containsSub "사진" t
  || strEndsWithB "기자" t
  || relatedArticlesPat t || pyLower t == "related"
  || searchSeqWs "photo" ":" (pyLower t).toList
  || searchSeqWs "image" ":" (pyLower t).toList
  || searchSeqWs "credit" ":" (pyLower t).toList
  || leadWordPat "subscribe" t || leadWordPat "recommended" t
  || leadWordPat "trending" t || leadWordPat "advertisement" t
  || leadWordPat "sponsored" t

/-- `_is_noise_line`: empty, very short (≤ 3 chars), title-duplicate, or
matching a caption/nav/credit pattern. -/
def _is_noise_line (txt : String) (title_text : String) : Bool :=
  let t := pyStrip txt
  if t == "" then true
  else if t.length ≤ 3 then true
  else if title_text != "" && _norm t == _norm title_text then true
  else if noiseRegexMatch t then true
  else false

structure ModelLine where
  index : Int
  label : String
  confidence : ℚ
  text : String

/-- Stable ascending insertion by `index` (Python `sorted` is stable). -/
def insertByIdx (x : ModelLine) : List ModelLine → List ModelLine
  | [] => [x]
  | y :: ys => if x.index ≤ y.index then x :: y :: ys else y :: insertByIdx x ys

def sortByIdx : List ModelLine → List ModelLine
  | [] => []
  | x :: xs => insertByIdx x (sortByIdx xs)

/-- One iteration of the keep loop of `classify_and_extract_article`
(`i` is the `enumerate` position; its only use is a redundant
title-duplicate recheck). -/
def lineKept (title_text titleNorm : String) (i : Nat) (ln : ModelLine) : Bool :=
  if pyStrip ln.text == "" then false
  else if pyLower (pyStrip ln.label) == "title_dup" then false
  else if titleNorm != "" && _norm ln.text == titleNorm then false
  else if i == 0 && (titleNorm != "" && _norm ln.text == titleNorm) then false
  else if pyLower (pyStrip ln.label) == "body"
      && decide (mkRat 9 10 ≤ ln.confidence) then
    !(_is_noise_line ln.text title_text)
  else false

/-- The post-response body of `classify_and_extract_article`: sort by
index, keep per `lineKept`, join with blank lines. -/
def classify_and_extract_lines (lines : List ModelLine)
    (title_text : String) : String :=
  String.intercalate "\n\n"
    ((((sortByIdx lines).enum).filter
        (fun p => lineKept title_text (_norm title_text) p.1 p.2)).map
      (fun p => p.2.text))

/-- The claim's retention rule, stated from its words: exactly the lines
labeled as body content with confidence at or above the threshold, in
index order, joined with paragraph breaks. -/
def claimRetained (lines : List ModelLine) : String :=
  String.intercalate "\n\n"
    (((sortByIdx lines).filter (fun ln =>
        pyLower (pyStrip ln.label) == "body"
          && decide (mkRat 9 10 ≤ ln.confidence))).map ModelLine.text)

/-- The retention rule the code actually implements. -/
def amendedKeep (title_text : String) (ln : ModelLine) : Bool :=
  pyStrip ln.text != ""
  && pyLower (pyStrip ln.label) != "title_dup"
  && !(_norm title_text != "" && _norm ln.text == _norm title_text)
  && (pyLower (pyStrip ln.label) == "body"
      && decide (mkRat 9 10 ≤ ln.confidence))
  && !(_is_noise_line ln.text title_text)

def amendedRetained (lines : List ModelLine) (title_text : String) : String :=
  String.intercalate "\n\n"
    (((sortByIdx lines).filter (amendedKeep title_text)).map ModelLine.text)

lemma lineKept_eq_amendedKeep (title_text : String) (i : Nat) (ln : ModelLine) :
    lineKept title_text (_norm title_text) i ln = amendedKeep title_text ln := by
  unfold lineKept amendedKeep
  split_ifs with h1 h2 h3 h4 h5 <;> simp_all <;> tauto

lemma enumFrom_filter_snd {α β : Type} (q : α → Bool) (f : α → β) :
    ∀ (l : List α) (k : Nat),
      ((List.enumFrom k l).filter (fun p => q p.2)).map (fun p => f p.2)
        = (l.filter q).map f := by
  intro l
  induction l with
  | nil => intro k; rfl
  | cons x xs ih =>
      intro k
      show (List.filter _ ((k, x) :: List.enumFrom (k + 1) xs)).map _ = _
      rw [List.filter_cons, List.filter_cons]
      by_cases h : q x = true
      · simp only [h, if_true, List.map_cons, ih (k + 1)]
      · simp only [Bool.not_eq_true] at h
        simp only [h, Bool.false_eq_true, if_false, ih (k + 1)]

lemma enumFrom_filter_lineKept (title_text : String)
    (l : List ModelLine) (k : Nat) :
    ((List.enumFrom k l).filter
        (fun p => lineKept title_text (_norm title_text) p.1 p.2)).map
      (fun p => p.2.text)
      = (l.filter (amendedKeep title_text)).map ModelLine.text := by
  have hfun : (fun (p : Nat × ModelLine) =>
      lineKept title_text (_norm title_text) p.1 p.2)
      = (fun p => amendedKeep title_text p.2) := by
    funext p
    exact lineKept_eq_amendedKeep title_text p.1 p.2
  rw [hfun]
  exact enumFrom_filter_snd (amendedKeep title_text) ModelLine.text l k

/-- C7 counterexample: a line labeled `body` at confidence 0.95 whose text
is only three characters long is dropped by the code's noise filter, while
the claim's rule retains it. -/
theorem C7_counterexample_short_body_line :
    classify_and_extract_lines [⟨0, "body", mkRat 19 20, "abc"⟩] "" = ""
  ∧ claimRetained [⟨0, "body", mkRat 19 20, "abc"⟩] = "abc"
  ∧ classify_and_extract_lines [⟨0, "body", mkRat 19 20, "abc"⟩] ""
      ≠ claimRetained [⟨0, "body", mkRat 19 20, "abc"⟩] := by
  refine ⟨by decide, by decide, by decide⟩

/-- C7 (amended): the extraction step retains, in index order and joined
with paragraph breaks, exactly the lines labeled as body content with
confidence at or above 0.9 that additionally pass the noise filter
(non-empty, longer than 3 characters, not a title duplicate, not matching
a caption/nav/credit pattern) and are not labeled `title_dup`; in the
scenario, the `body` line at 0.95 is retained and the `nav` line at 0.99
is not. -/
theorem C7_extraction_retention_amended (lines : List ModelLine)
    (title_text : String) :
    classify_and_extract_lines lines title_text
      = amendedRetained lines title_text
  ∧ classify_and_extract_lines
      [⟨0, "body", mkRat 95 100, "This is the article body text."⟩,
       ⟨1, "nav", mkRat 99 100, "Home News Top Stories"⟩] ""
      = "This is the article body text." := by
  constructor
  · unfold classify_and_extract_lines amendedRetained List.enum
    rw [enumFrom_filter_lineKept]
  · decide

/-! ## Token persistence with optimistic concurrency
(`sprinklr_client.py`, `_load_tokens` lines 65-81, `_save_tokens`
lines 84-115, `_atomic_local_write` lines 55-62)

The GCS token object is modelled as its JSON content plus a generation
number; `if_generation_match` is the store's conditional write. The loaded
record's `_gen` field is the `expectedVersion` of the spec's `save`. The
retry loop is modelled with no interleaved writer between attempts (the
single-writer view suffices to settle the claim). -/

structure GcsObject where
  content : Row
  generation : Nat

/-- Python `base.update(over)` on dicts. -/
def dictUpdate (base over : Row) : Row :=
  over.foldl (fun acc p => setField acc p.1 p.2) base

/-- `blob.upload_from_string(payload, if_generation_match=g)`; `none`
models the unconditional upload used when `_gen` was absent. The error is
`PreconditionFailed`, which leaves the stored object untouched. -/
def uploadIfGenerationMatch (st : GcsObject) (payload : Row)
    (expected : Option Nat) : Except Unit GcsObject :=
  match expected with
  | none => .ok ⟨payload, st.generation + 1⟩
  | some g =>
      if g = st.generation then .ok ⟨payload, st.generation + 1⟩
      else .error ()

/-- The `for attempt in range(3)` loop of `_save_tokens` on a `gs://`
location: on `PreconditionFailed`, re-read the latest record, merge the
new fields over it, adopt the fresh generation and retry; after 3 failed
attempts raise `RuntimeError`. Returns the new store and the new `_gen`
written back into the record. -/
def saveTokensGcsAux (data : Row) :
    Nat → Option Nat → Row → GcsObject → Except String (GcsObject × Nat)
  | 0, _, _, _ =>
      .error "Failed to save tokens to GCS due to concurrent updates."
  | fuel + 1, prevGen, payload, st =>
      match uploadIfGenerationMatch st payload prevGen with
      | .ok st2 => .ok (st2, st2.generation)
      | .error _ =>
          saveTokensGcsAux data fuel (some st.generation)
            (dictUpdate st.content data) st

/-- `_save_tokens` on a `gs://` token location (`t` is the record without
`_gen`; `prevGen` is the popped `_gen`). -/
def _save_tokens_gcs (t : Row) (prevGen : Option Nat) (st : GcsObject) :
    Except String (GcsObject × Nat) :=
  saveTokensGcsAux t 3 prevGen t st

/-- `_save_tokens` on a local-file token location: an atomic write that
replaces whatever is stored, with no version check at all. -/
def _save_tokens_local (t : Row) (_stored : Row) : Row := t

/-- The newer stored record (generation 2) that a concurrent sibling has
written since this process loaded generation 1. -/
def staleStore : GcsObject :=
  ⟨[("access_token", .str "B"), ("refresh_token", .str "RB")], 2⟩

/-- The record this process wants to save, carrying stale `_gen = 1`. -/
def staleData : Row :=
  [("access_token", .str "A2"), ("refresh_token", .str "RA2")]

/-- C4 counterexample: a save whose `expectedVersion` (generation 1) is
stale against the stored generation 2 does NOT fail: it succeeds on the
retry after merging, and the stored `access_token` changes from the newer
record's `"B"` to `"A2"` — the newer record is overwritten. -/
theorem C4_counterexample_stale_save_succeeds :
    _save_tokens_gcs staleData (some 1) staleStore
      = .ok (⟨dictUpdate staleStore.content staleData, 3⟩, 3)
  ∧ pyStr ((rowGet (dictUpdate staleStore.content staleData)
      "access_token").getD .null) = "A2"
  ∧ pyStr ((rowGet staleStore.content "access_token").getD .null) = "B" :=
  ⟨rfl, rfl, rfl⟩

/-- C4 (amended): the storage-level conditional write with a stale
expected version fails (`PreconditionFailed`) and does not modify the
store; `_save_tokens` however catches that failure, re-reads the latest
record, merges its own fields over it and retries with the fresh
generation, so that — absent further concurrent updates — a save begun
with a stale version succeeds with the merged record instead of failing;
persistent contention exhausts the 3 attempts and raises `RuntimeError`;
and on a local-file token location the save overwrites unconditionally
with no version check. -/
theorem C4_stale_save_merges_amended (st : GcsObject) (t payload : Row)
    (g : Nat) (hg : g ≠ st.generation) :
    uploadIfGenerationMatch st payload (some g) = .error ()
  ∧ _save_tokens_gcs t (some g) st
      = .ok (⟨dictUpdate st.content t, st.generation + 1⟩, st.generation + 1)
  ∧ _save_tokens_gcs t (some st.generation) st
      = .ok (⟨t, st.generation + 1⟩, st.generation + 1)
  ∧ (∀ prevGen q st2, saveTokensGcsAux t 0 prevGen q st2
      = .error "Failed to save tokens to GCS due to concurrent updates.")
  ∧ (∀ stored, _save_tokens_local t stored = t) := by
  refine ⟨?_, ?_, ?_, fun _ _ _ => rfl, fun _ => rfl⟩
  · simp [uploadIfGenerationMatch, hg]
  · simp [_save_tokens_gcs, saveTokensGcsAux, uploadIfGenerationMatch, hg]
  · simp [_save_tokens_gcs, saveTokensGcsAux, uploadIfGenerationMatch]

/-- Witness for the amended C4 at the concrete stale scenario. -/
theorem C4_stale_save_merges_amended_witness :
    (1 ≠ staleStore.generation)
  ∧ uploadIfGenerationMatch staleStore staleData (some 1) = .error () :=
  ⟨by decide,
   (C4_stale_save_merges_amended staleStore staleData staleData 1
     (by decide)).1⟩

/-! ## Shard publishing
(`main.py`, `_upload_file_to_gs` lines 179-206, shard write in `run`
lines 1240-1253, `_build_output_paths` lines 255-276)

The object store is modelled as a key-to-content map; `if_generation_match=0`
is the create-only write that fails when the key already exists. -/

def GcsStore : Type := List (String × String)

def gcsLookup (st : GcsStore) (k : String) : Option String :=
  (List.find? (fun p => p.1 == k) st).map Prod.snd

def gcsWrite : GcsStore → String → String → GcsStore
  | [], k, v => [(k, v)]
  | (k2, v2) :: rest, k, v =>
      if k2 == k then (k2, v) :: rest else (k2, v2) :: gcsWrite rest k v

/-- `os.path.splitext` (the all-dots-basename corner follows Python: a
basename consisting only of leading dots has no extension). -/
def splitExt (key : String) : String × String :=
  let rev := key.toList.reverse
  let extRev := rev.takeWhile (fun c => c != '.' && c != '/')
  let rest := rev.dropWhile (fun c => c != '.' && c != '/')
  if rest.head? = some '.' then
    if (rest.tail.takeWhile (fun c => c != '/')).all (fun c => c = '.') then
      (key, "")
    else (String.mk rest.tail.reverse, String.mk ('.' :: extRev.reverse))
  else (key, "")

/-- `f"\x7bbase\x7d__dup_\x7bts\x7d\x7bext or ''\x7d"`. -/
def dupKey (key ts : String) : String :=
  (splitExt key).1 ++ "__dup_" ++ ts ++ (splitExt key).2

/-- `shard_name = f"articles_sprinklr.part-\x7btask_index\x7d.csv"` and
`shard_gs = parts_dir + shard_name`: the deterministic per-run, per-task
key (`parts_dir` is derived from the run folder by `_build_output_paths`). -/
def shardName (taskIndex : Nat) : String :=
  "articles_sprinklr.part-" ++ toString taskIndex ++ ".csv"

def shardKey (partsDir : String) (taskIndex : Nat) : String :=
  partsDir ++ shardName taskIndex

/-- `_build_output_paths`: `(base_dir, parts_dir, final_csv)` under the
shared run folder (console-URL rewriting elided). -/
def _build_output_paths (basePrefix folderId : String) :
    Option (String × String × String) :=
  if strStartsWithB "gs://" basePrefix then
    let root := if strEndsWithB "/" basePrefix then basePrefix
      else basePrefix ++ "/"
    let sub := String.mk (((folderId.toList.dropWhile (fun c => c = '/')
      ).reverse.dropWhile (fun c => c = '/')).reverse)
    let baseDir := if sub != "" then root ++ sub ++ "/" else root
    some (baseDir, baseDir ++ "parts/",
      baseDir ++ "articles_sprinklr_"
        ++ (if sub != "" then sub else "final") ++ ".csv")
  else none

/-- `_upload_file_to_gs`: create-only upload at `key`; if the key already
exists (the `Precondition`/`412`/`already exists` branch), create-only
upload at the `__dup_<ts>` key instead; a failure of that second upload
propagates. Transport errors other than the precondition failure are not
modelled. -/
def _upload_file_to_gs (st : GcsStore) (key content ts : String) :
    Except String (GcsStore × String) :=
  match gcsLookup st key with
  | none => .ok (gcsWrite st key content, key)
  | some _ =>
      match gcsLookup st (dupKey key ts) with
      | none => .ok (gcsWrite st (dupKey key ts) content, dupKey key ts)
      | some _ => .error "upload failed"

lemma gcsLookup_write_self : ∀ (st : GcsStore) (k v : String),
    gcsLookup (gcsWrite st k v) k = some v := by
  intro st
  induction st with
  | nil =>
      intro k v
      simp [gcsWrite, gcsLookup, List.find?]
  | cons p rest ih =>
      intro k v
      obtain ⟨p1, p2⟩ := p
      by_cases h : p1 = k
      · subst h
        simp [gcsWrite, gcsLookup, List.find?]
      · have hb : (p1 == k) = false := by
          simp only [beq_eq_false_iff_ne, ne_eq]
          exact h
        simp only [gcsWrite, hb, Bool.false_eq_true, if_false]
        simp only [gcsLookup, List.find?_cons, hb]
        exact ih k v

lemma gcsLookup_write_other : ∀ (st : GcsStore) (k k2 v : String),
    k ≠ k2 → gcsLookup (gcsWrite st k2 v) k = gcsLookup st k := by
  intro st
  induction st with
  | nil =>
      intro k k2 v hne
      have hb : (k2 == k) = false := by
        simp only [beq_eq_false_iff_ne, ne_eq]
        exact fun h => hne h.symm
      simp [gcsWrite, gcsLookup, List.find?, hb]
  | cons p rest ih =>
      intro k k2 v hne
      obtain ⟨p1, p2⟩ := p
      by_cases h : p1 = k2
      · subst h
        have hbk : (p1 == k) = false := by
          simp only [beq_eq_false_iff_ne, ne_eq]
          exact fun hx => hne hx.symm
        simp [gcsWrite, gcsLookup, List.find?_cons, hbk]
      · have hb : (p1 == k2) = false := by
          simp only [beq_eq_false_iff_ne, ne_eq]
          exact h
        simp only [gcsWrite, hb, Bool.false_eq_true, if_false]
        cases hpk : (p1 == k) with
        | true => simp [gcsLookup, List.find?_cons, hpk]
        | false =>
            simp only [gcsLookup, List.find?_cons, hpk]
            exact ih k k2 v hne

lemma string_mk_append (a b : List Char) :
    String.mk a ++ String.mk b = String.mk (a ++ b) := rfl

lemma string_append_empty (s : String) : s ++ "" = s := by
  calc s ++ "" = String.mk (s.data ++ []) := rfl
    _ = String.mk s.data := by rw [List.append_nil]
    _ = s := rfl

/-- The two halves of `splitExt` concatenate back to the key. -/
lemma splitExt_append (key : String) :
    (splitExt key).1 ++ (splitExt key).2 = key := by
  unfold splitExt
  simp only []
  by_cases h : (key.toList.reverse.dropWhile
      (fun c => c != '.' && c != '/')).head? = some '.'
  · rw [if_pos h]
    cases hr : key.toList.reverse.dropWhile (fun c => c != '.' && c != '/') with
    | nil => rw [hr] at h; simp at h
    | cons a t =>
        rw [hr] at h
        simp only [List.head?_cons, Option.some.injEq] at h
        subst h
        by_cases hall : ((('.' :: t).tail.takeWhile
            (fun c => c != '/')).all (fun c => c = '.')) = true
        · rw [if_pos hall]
          exact string_append_empty key
        · rw [if_neg (by simpa using hall)]
          rw [string_mk_append]
          have hsplit : key.toList.reverse.takeWhile
                (fun c => c != '.' && c != '/')
              ++ key.toList.reverse.dropWhile (fun c => c != '.' && c != '/')
              = key.toList.reverse :=
            List.takeWhile_append_dropWhile _ _
          rw [hr] at hsplit
          have hx : ('.' :: t).tail.reverse ++ ('.' ::
              (key.toList.reverse.takeWhile
                (fun c => c != '.' && c != '/')).reverse)
              = key.toList := by
            simp only [List.tail_cons]
            calc t.reverse ++ ('.' :: (key.toList.reverse.takeWhile
                  (fun c => c != '.' && c != '/')).reverse)
                = ('.' :: t).reverse ++ (key.toList.reverse.takeWhile
                  (fun c => c != '.' && c != '/')).reverse := by
                  simp [List.reverse_cons, List.append_assoc]
              _ = ((key.toList.reverse.takeWhile
                  (fun c => c != '.' && c != '/')) ++ '.' :: t).reverse := by
                  rw [List.reverse_append]
              _ = (key.toList.reverse).reverse := by rw [hsplit]
              _ = key.toList := List.reverse_reverse _
          rw [hx]
          rfl
  · rw [if_neg h]
    exact string_append_empty key

lemma length_splitExt (key : String) :
    (splitExt key).1.length + (splitExt key).2.length = key.length := by
  have h := congrArg String.length (splitExt_append key)
  simpa [String.length_append] using h

lemma dupKey_length (key ts : String) :
    (dupKey key ts).length = key.length + 6 + ts.length := by
  have h := length_splitExt key
  simp only [dupKey, String.length_append]
  have h6 : ("__dup_" : String).length = 6 := rfl
  omega

lemma dupKey_ne (key ts : String) : dupKey key ts ≠ key := by
  intro h
  have := dupKey_length key ts
  rw [h] at this
  omega

/-- C9: publishing a shard writes its serialized content once at the
deterministic per-run, per-task key; a repeated publish does not touch
that key — it lands at a fresh `__dup_` key (or fails if even that exists)
— so the artifact at the shard key stays equal to the single publish and
is never overwritten or replaced with different content. -/
theorem C9_shard_publish_idempotent (st : GcsStore)
    (partsDir content c2 ts ts2 : String) (i : Nat)
    (hfresh : gcsLookup st (shardKey partsDir i) = none) :
    _upload_file_to_gs st (shardKey partsDir i) content ts
      = .ok (gcsWrite st (shardKey partsDir i) content, shardKey partsDir i)
  ∧ gcsLookup (gcsWrite st (shardKey partsDir i) content)
      (shardKey partsDir i) = some content
  ∧ (gcsLookup (gcsWrite st (shardKey partsDir i) content)
        (dupKey (shardKey partsDir i) ts2) = none →
      _upload_file_to_gs (gcsWrite st (shardKey partsDir i) content)
          (shardKey partsDir i) c2 ts2
        = .ok (gcsWrite (gcsWrite st (shardKey partsDir i) content)
            (dupKey (shardKey partsDir i) ts2) c2,
            dupKey (shardKey partsDir i) ts2)
      ∧ gcsLookup (gcsWrite (gcsWrite st (shardKey partsDir i) content)
            (dupKey (shardKey partsDir i) ts2) c2)
          (shardKey partsDir i) = some content)
  ∧ (∀ d, gcsLookup (gcsWrite st (shardKey partsDir i) content)
        (dupKey (shardKey partsDir i) ts2) = some d →
      _upload_file_to_gs (gcsWrite st (shardKey partsDir i) content)
          (shardKey partsDir i) c2 ts2 = .error "upload failed") := by
  have hself := gcsLookup_write_self st (shardKey partsDir i) content
  refine ⟨?_, hself, ?_, ?_⟩
  · simp [_upload_file_to_gs, hfresh]
  · intro hdup
    constructor
    · simp [_upload_file_to_gs, hself, hdup]
    · rw [gcsLookup_write_other _ _ _ _
        (fun h => dupKey_ne (shardKey partsDir i) ts2 h.symm)]
      exact hself
  · intro d hdup
    simp [_upload_file_to_gs, hself, hdup]

/-- Witness for C9: a publish and a re-publish on an empty store. -/
theorem C9_shard_publish_idempotent_witness :
    gcsLookup [] (shardKey "gs://b/run/parts/" 0) = none
  ∧ _upload_file_to_gs [] (shardKey "gs://b/run/parts/" 0) "rows" "t1"
      = .ok (gcsWrite [] (shardKey "gs://b/run/parts/" 0) "rows",
          shardKey "gs://b/run/parts/" 0) :=
  ⟨rfl, (C9_shard_publish_idempotent [] "gs://b/run/parts/" "rows" "rows2"
    "t1" "t2" 0 rfl).1⟩

/-! ## Authenticated call with a single refresh retry
(`sprinklr_client.py`, `spr` lines 163-254; `_refresh` lines 118-149)

`send i tok` is the report API's response to the `i`-th request of this
`spr` call when sent with bearer token `tok`; `a0` is the loaded access
token and `a1` the access token a successful `_refresh` would install
(a failing refresh raises inside `_refresh` and is outside this claim). -/

structure HttpResp where
  status : Nat
  body : String

/-- `requests.Response.raise_for_status()` raises exactly for 4xx/5xx. -/
def raisesForStatus (r : HttpResp) : Bool :=
  decide (400 ≤ r.status) && decide (r.status < 600)

inductive SprOutcome : Type where
  | ok : String → SprOutcome
  | httpError : Nat → SprOutcome

/-- `spr`: issue the request; on 401/403 with a refresh token available,
refresh once and re-issue with the new token, then `raise_for_status`;
otherwise `raise_for_status` directly. Returns the outcome and the bearer
token of each request issued. -/
def spr (hasRefresh : Bool) (a0 a1 : String)
    (send : Nat → String → HttpResp) : SprOutcome × List String :=
  let r1 := send 0 a0
  if (r1.status == 401 || r1.status == 403) && hasRefresh then
    let r2 := send 1 a1
    if raisesForStatus r2 then (.httpError r2.status, [a0, a1])
    else (.ok r2.body, [a0, a1])
  else if raisesForStatus r1 then (.httpError r1.status, [a0])
  else (.ok r1.body, [a0])

/-- C10: on a first response of 401/403 with a refresh token present, the
client refreshes and re-issues exactly once with the new token — two
requests, the first with the old and the second with the new bearer token
— and a failure of the retried request raises with its status (no second
refresh, still two requests); any other HTTP error status (≥ 400 and
< 600 but not 401/403, or 401/403 without a refresh token) raises after a
single request without refreshing; a first success answers directly. -/
theorem C10_spr_single_refresh_retry (a0 a1 : String)
    (send : Nat → String → HttpResp) :
    (((send 0 a0).status = 401 ∨ (send 0 a0).status = 403) →
        (spr true a0 a1 send).2 = [a0, a1]
      ∧ (raisesForStatus (send 1 a1) = true →
          (spr true a0 a1 send).1 = .httpError (send 1 a1).status)
      ∧ (raisesForStatus (send 1 a1) = false →
          (spr true a0 a1 send).1 = .ok (send 1 a1).body))
  ∧ (∀ hasRefresh, 400 ≤ (send 0 a0).status → (send 0 a0).status < 600 →
      (send 0 a0).status ≠ 401 → (send 0 a0).status ≠ 403 →
        spr hasRefresh a0 a1 send
          = (.httpError (send 0 a0).status, [a0]))
  ∧ (((send 0 a0).status = 401 ∨ (send 0 a0).status = 403) →
      spr false a0 a1 send = (.httpError (send 0 a0).status, [a0]))
  ∧ ((send 0 a0).status < 400 →
      ∀ hasRefresh, spr hasRefresh a0 a1 send
        = (.ok (send 0 a0).body, [a0])) := by
  refine ⟨?_, ?_, ?_, ?_⟩
  · intro h1
    have hb : (((send 0 a0).status == 401 || (send 0 a0).status == 403)
        && true) = true := by
      rcases h1 with h | h <;> simp [h]
    refine ⟨?_, ?_, ?_⟩
    · simp only [spr, hb, if_true]
      by_cases h2 : raisesForStatus (send 1 a1) = true <;> simp [h2]
    · intro h2
      simp [spr, hb, h2]
    · intro h2
      simp [spr, hb, h2]
  · intro hasRefresh h4 h6 hn1 hn3
    have hb : (((send 0 a0).status == 401 || (send 0 a0).status == 403)
        && hasRefresh) = false := by
      simp [hn1, hn3]
    have hr : raisesForStatus (send 0 a0) = true := by
      simp [raisesForStatus, h4, h6]
    simp [spr, hb, hr]
  · intro h1
    have hr : raisesForStatus (send 0 a0) = true := by
      rcases h1 with h | h <;> simp [raisesForStatus, h]
    simp [spr, hr]
  · intro hlt hasRefresh
    have hb : (((send 0 a0).status == 401 || (send 0 a0).status == 403)
        && hasRefresh) = false := by
      have h1 : (send 0 a0).status ≠ 401 := by omega
      have h3 : (send 0 a0).status ≠ 403 := by omega
      simp [h1, h3]
    have hr : raisesForStatus (send 0 a0) = false := by
      simp only [raisesForStatus, Bool.and_eq_false_iff]
      left
      simpa using by omega
    simp [spr, hb, hr]

/-- Witness for C10: a 401 then a 200 with the refreshed token. -/
theorem C10_spr_single_refresh_retry_witness :
    ((if (0 : Nat) = 0 then HttpResp.mk 401 "expired"
        else HttpResp.mk 200 "data").status = 401
      ∨ (if (0 : Nat) = 0 then HttpResp.mk 401 "expired"
        else HttpResp.mk 200 "data").status = 403)
  ∧ (spr true "tokA" "tokB"
      (fun i _ => if i = 0 then HttpResp.mk 401 "expired"
        else HttpResp.mk 200 "data")).2 = ["tokA", "tokB"] :=
  ⟨Or.inl rfl,
   ((C10_spr_single_refresh_retry "tokA" "tokB"
      (fun i _ => if i = 0 then HttpResp.mk 401 "expired"
        else HttpResp.mk 200 "data")).1 (Or.inl rfl)).1⟩

end Sprinklr
